import Mathlib

/-!
Verification of the `arxiv-recent` digest pipeline core: the persistent
store (`db.py`), the summarization engine (`summarizer.py`, `llm.py`),
the push fan-out (`push/__init__.py`) and the run controller
(`cli.cmd_run`).  Python dictionaries are embedded as association lists,
Python strings holding comma-separated channel sets as `List Char`
(so that `str.split` / `",".join` become provable recursive functions),
JSON values as an inductive `JVal`, and wall-clock time (for the rate
limiter) as `ℚ`.  External collaborators (arXiv fetch, LLM gateway,
SMTP/QQ send, file writes) are oracles supplied as explicit arguments.
-/

namespace ArxivRecent

/-! ### Association lists: the embedding of Python `dict`.
`assocSet` follows Python assignment semantics: update in place if the
key is present, else append (insertion order preserved). -/

def assocLookup {α β : Type} [DecidableEq α] (k : α) : List (α × β) → Option β
  | [] => none
  | (k1, v1) :: rest => if k1 = k then some v1 else assocLookup k rest

def assocSet {α β : Type} [DecidableEq α] (k : α) (v : β) : List (α × β) → List (α × β)
  | [] => [(k, v)]
  | (k1, v1) :: rest => if k1 = k then (k, v) :: rest else (k1, v1) :: assocSet k v rest

theorem assocLookup_set_self {α β : Type} [DecidableEq α] (k : α) (v : β)
    (l : List (α × β)) : assocLookup k (assocSet k v l) = some v := by
  induction l with
  | nil => simp [assocSet, assocLookup]
  | cons hd tl ih =>
    obtain ⟨k1, v1⟩ := hd
    by_cases h : k1 = k
    · simp [assocSet, assocLookup, h]
    · simp [assocSet, assocLookup, h, ih]

theorem assocLookup_set_other {α β : Type} [DecidableEq α] (k k2 : α) (v : β)
    (l : List (α × β)) (hne : k ≠ k2) :
    assocLookup k2 (assocSet k v l) = assocLookup k2 l := by
  induction l with
  | nil => simp [assocSet, assocLookup, hne]
  | cons hd tl ih =>
    obtain ⟨k1, v1⟩ := hd
    by_cases h : k1 = k
    · subst h
      simp [assocSet, assocLookup, hne]
    · simp [assocSet, assocLookup, h, ih]

/-! ### Python comma-separated strings.
`pySplitComma` is Python's `s.split(",")` and `joinComma` is
`",".join(l)`, both on `List Char`.  Note `"".split(",") == [""]`:
splitting the empty string yields one empty piece. -/

def splitAux : List Char → List Char → List (List Char)
  | [], acc => [acc.reverse]
  | c :: rest, acc =>
      if c = ',' then acc.reverse :: splitAux rest []
      else splitAux rest (c :: acc)

def pySplitComma (s : List Char) : List (List Char) :=
  splitAux s []

def joinComma : List (List Char) → List Char
  | [] => []
  | [x] => x
  | x :: y :: rest => x ++ ',' :: joinComma (y :: rest)

theorem splitAux_ne_nil (s acc : List Char) : splitAux s acc ≠ [] := by
  induction s generalizing acc with
  | nil => simp [splitAux]
  | cons c rest ih =>
    by_cases h : c = ','
    · simp [splitAux, h]
    · simp [splitAux, h, ih]

theorem comma_not_mem_splitAux (s : List Char) :
    ∀ acc : List Char, ',' ∉ acc → ∀ p ∈ splitAux s acc, ',' ∉ p := by
  induction s with
  | nil =>
    intro acc hacc p hp
    simp only [splitAux, List.mem_singleton] at hp
    subst hp
    simpa using hacc
  | cons c rest ih =>
    intro acc hacc p hp
    by_cases h : c = ','
    · rw [splitAux, if_pos h] at hp
      rcases List.mem_cons.mp hp with h2 | h2
      · subst h2; simpa using hacc
      · exact ih [] (by simp) p h2
    · rw [splitAux, if_neg h] at hp
      exact ih (c :: acc) (by simp [hacc, Ne.symm h]) p hp

theorem comma_not_mem_pySplitComma (s : List Char) (p : List Char)
    (hp : p ∈ pySplitComma s) : ',' ∉ p :=
  comma_not_mem_splitAux s [] (by simp) p hp

theorem splitAux_append_comma (x : List Char) (hx : ',' ∉ x) (t : List Char) :
    ∀ acc : List Char,
      splitAux (x ++ ',' :: t) acc = (acc.reverse ++ x) :: splitAux t [] := by
  induction x with
  | nil => intro acc; simp [splitAux]
  | cons c cs ih =>
    intro acc
    have hc : c ≠ ',' := fun h => hx (h ▸ List.mem_cons_self c cs)
    have hcs : ',' ∉ cs := fun h => hx (List.mem_cons_of_mem c h)
    simp only [List.cons_append, splitAux, if_neg hc]
    show splitAux (cs ++ ',' :: t) (c :: acc) = (acc.reverse ++ c :: cs) :: splitAux t []
    rw [ih hcs (c :: acc)]
    simp

theorem splitAux_no_comma (x : List Char) (hx : ',' ∉ x) :
    ∀ acc : List Char, splitAux x acc = [acc.reverse ++ x] := by
  induction x with
  | nil => intro acc; simp [splitAux]
  | cons c cs ih =>
    intro acc
    have hc : c ≠ ',' := fun h => hx (h ▸ List.mem_cons_self c cs)
    have hcs : ',' ∉ cs := fun h => hx (List.mem_cons_of_mem c h)
    simp only [splitAux, if_neg hc]
    rw [ih hcs (c :: acc)]
    simp

theorem pySplitComma_joinComma (l : List (List Char)) (hne : l ≠ [])
    (hfree : ∀ p ∈ l, ',' ∉ p) : pySplitComma (joinComma l) = l := by
  induction l with
  | nil => exact absurd rfl hne
  | cons x rest ih =>
    cases rest with
    | nil =>
      simp only [joinComma, pySplitComma]
      rw [splitAux_no_comma x (hfree x (by simp)) []]
      simp
    | cons y rest2 =>
      simp only [joinComma, pySplitComma]
      rw [splitAux_append_comma x (hfree x (by simp)) _ []]
      simp only [List.reverse_nil, List.nil_append]
      have := ih (by simp) (fun p hp => hfree p (List.mem_cons_of_mem x hp))
      simpa [pySplitComma] using congrArg (x :: ·) this

/-! ### Python `sorted` on channel-name strings (lexicographic by code
point) and `str.strip` / `str.lower`. -/

def lexLe : List Char → List Char → Bool
  | [], _ => true
  | _ :: _, [] => false
  | x :: xs, y :: ys => if x = y then lexLe xs ys else decide (x < y)

def insertCh (x : List Char) : List (List Char) → List (List Char)
  | [] => [x]
  | y :: ys => if lexLe x y then x :: y :: ys else y :: insertCh x ys

def sortChannels : List (List Char) → List (List Char)
  | [] => []
  | x :: xs => insertCh x (sortChannels xs)

theorem mem_insertCh (x p : List Char) (l : List (List Char)) :
    p ∈ insertCh x l ↔ p = x ∨ p ∈ l := by
  induction l with
  | nil => simp [insertCh]
  | cons y ys ih =>
    by_cases h : lexLe x y
    · simp [insertCh, h]
    · simp only [insertCh, if_neg h, List.mem_cons, ih]
      tauto

theorem mem_sortChannels (p : List Char) (l : List (List Char)) :
    p ∈ sortChannels l ↔ p ∈ l := by
  induction l with
  | nil => simp [sortChannels]
  | cons x xs ih => simp [sortChannels, mem_insertCh, ih]

def pyStrip (s : List Char) : List Char :=
  ((s.dropWhile Char.isWhitespace).reverse.dropWhile Char.isWhitespace).reverse

def pyLower (s : List Char) : List Char :=
  s.map Char.toLower

/-! ### JSON values (the result of `json.loads` on LLM output) and
Python truthiness. -/

inductive JVal : Type where
  | null : JVal
  | bool : Bool → JVal
  | num : Int → JVal
  | str : String → JVal
  | arr : List JVal → JVal
  | obj : List (String × JVal) → JVal

/-- Python falsiness: `None`, `False`, `0`, `""`, `[]`, `{}`. -/
def falsy : JVal → Bool
  | .null => true
  | .bool b => !b
  | .num n => n == 0
  | .str s => s == ""
  | .arr l => l.isEmpty
  | .obj l => l.isEmpty

/-! Python `str()` / `repr()` of a parsed-JSON value (scalars exact;
containers in Python literal syntax, string escaping elided). -/

mutual

def pyRepr : JVal → String
  | .null => "None"
  | .bool true => "True"
  | .bool false => "False"
  | .num n => toString n
  | .str s => "\x27" ++ s ++ "\x27"
  | .arr l => "[" ++ String.intercalate ", " (pyReprList l) ++ "]"
  | .obj kvs => "\x7b" ++ String.intercalate ", " (pyReprKVs kvs) ++ "\x7d"

def pyReprList : List JVal → List String
  | [] => []
  | v :: vs => pyRepr v :: pyReprList vs

def pyReprKVs : List (String × JVal) → List String
  | [] => []
  | (k, v) :: kvs => ("\x27" ++ k ++ "\x27: " ++ pyRepr v) :: pyReprKVs kvs

end

/-- Python `str(v)`: a string stays itself, everything else is its repr. -/
def pyStrOf : JVal → String
  | .str s => s
  | v => pyRepr v

/-! ### `summarizer._validate_summary`: the field-defaulting /
normalization step. -/

/-- The `defaults` dict of `_validate_summary`, in its literal
(insertion) order. -/
def summaryDefaults : List (String × JVal) :=
  [ ("title_zh", .str "unknown"),
    ("tldr_zh", .str "unknown"),
    ("contributions_zh", .arr [.str "unknown"]),
    ("method_zh", .str "unknown"),
    ("experiments_zh", .str "unknown"),
    ("results_zh", .str "unknown"),
    ("limitations_zh", .str "unknown"),
    ("who_should_read_zh", .str "unknown"),
    ("links", .obj [("abs", .str ""), ("pdf", .str "")]) ]

def defaultLinks : JVal :=
  .obj [("abs", .str ""), ("pdf", .str "")]

/-- Test for `isinstance(v, list)`. -/
def isArr : JVal → Bool
  | .arr _ => true
  | _ => false

/-- Test for `isinstance(v, dict)`. -/
def isObj : JVal → Bool
  | .obj _ => true
  | _ => false

/-- One iteration of the defaults loop of `_validate_summary`:
`if key not in data or not data[key]: data[key] = default`. -/
def defaultStep (d : List (String × JVal)) (kd : String × JVal) :
    List (String × JVal) :=
  match assocLookup kd.1 d with
  | none => assocSet kd.1 kd.2 d
  | some v => if falsy v then assocSet kd.1 kd.2 d else d

/-- Embedding of `_validate_summary` (summarizer.py lines 87-107):
fill absent-or-falsy required fields with their defaults, wrap a
non-list `contributions_zh` into `[str(value)]`, and replace a
non-dict `links` by the default mapping. -/
def validate_summary (data : List (String × JVal)) : List (String × JVal) :=
  let d1 : List (String × JVal) := summaryDefaults.foldl defaultStep data
  let d2 : List (String × JVal) :=
    match assocLookup "contributions_zh" d1 with
    | some (JVal.arr _) => d1
    | some v => assocSet "contributions_zh" (.arr [.str (pyStrOf v)]) d1
    | none => assocSet "contributions_zh" (.arr [.str (pyStrOf (.str "unknown"))]) d1
  match assocLookup "links" d2 with
  | some (JVal.obj _) => d2
  | _ => assocSet "links" defaultLinks d2

/-! ### The persistent store (`db.py`).
Tables are embedded as lists: `papers` keyed by `arxiv_id` (primary
key), `summaries` keyed by `arxiv_id` (one row per id, insert-or-
replace), `runs` keyed by `run_date`.  `created_at` columns are not
modelled; `fetched_at` is an explicit clock argument. -/

structure Paper where
  arxiv_id : String
  title : String
  authors : String
  category : String
  published_at : String
  updated_at : String
  abs_url : String
  pdf_url : String
  abstract : String
  deriving DecidableEq, Repr

structure PaperRow where
  paper : Paper
  fetched_at : String
  deriving DecidableEq, Repr

structure RunRow where
  status : String
  sent_channels : List Char
  deriving DecidableEq, Repr

structure DB where
  papers : List PaperRow
  summaries : List (String × List (String × JVal))
  runs : List (String × RunRow)

/-- Embedding of `Database.upsert_paper` (db.py lines 59-80):
`INSERT OR IGNORE` on the `arxiv_id` primary key.  Returns whether a
new row was created, together with the new table. -/
def upsert_paper (now : String) (p : Paper) (tbl : List PaperRow) :
    Bool × List PaperRow :=
  if tbl.any (fun row => row.paper.arxiv_id == p.arxiv_id) then (false, tbl)
  else (true, tbl ++ [⟨p, now⟩])

/-- Embedding of `Database.upsert_papers`: bulk upsert, counting newly
inserted rows. -/
def upsert_papers (now : String) (ps : List Paper) (tbl : List PaperRow) :
    Nat × List PaperRow :=
  ps.foldl
    (fun acc p =>
      let r := upsert_paper now p acc.2
      (acc.1 + (if r.1 then 1 else 0), r.2))
    (0, tbl)

/-- Embedding of `Database.has_summary`. -/
def has_summary (db : DB) (arxiv_id : String) : Bool :=
  (assocLookup arxiv_id db.summaries).isSome

/-- Embedding of `Database.save_summary`: `INSERT OR REPLACE`. -/
def save_summary (db : DB) (arxiv_id : String) (s : List (String × JVal)) : DB :=
  { db with summaries := assocSet arxiv_id s db.summaries }

/-- Embedding of `Database.get_summary` (the JSON round trip through
`summary_json` is the identity on the stored record). -/
def get_summary (db : DB) (arxiv_id : String) : Option (List (String × JVal)) :=
  assocLookup arxiv_id db.summaries

/-- Embedding of `Database.get_run`. -/
def get_run (db : DB) (run_date : String) : Option RunRow :=
  assocLookup run_date db.runs

/-- Embedding of `Database.upsert_run` (db.py lines 147-156): insert or
update, the update path replacing `status` and `sent_channels`
unconditionally. -/
def upsert_run (db : DB) (run_date : String) (status : String)
    (sent_channels : List Char) : DB :=
  { db with runs := assocSet run_date ⟨status, sent_channels⟩ db.runs }

/-- Embedding of `Database.was_sent` (db.py lines 158-162):
`channel in run["sent_channels"].split(",")`. -/
def was_sent (db : DB) (run_date : String) (channel : List Char) : Bool :=
  match get_run db run_date with
  | none => false
  | some run => decide (channel ∈ pySplitComma run.sent_channels)

/-- Embedding of `Database.mark_sent` (db.py lines 164-171):
read-modify-write merging the channel into the existing set
(`{c for c in split if c}`, `add`, `",".join(sorted(...))`), with
status forced to `"sent"`. -/
def mark_sent (db : DB) (run_date : String) (channel : List Char) : DB :=
  match get_run db run_date with
  | none => upsert_run db run_date "sent" channel
  | some run =>
      let existing := ((pySplitComma run.sent_channels).filter
        (fun c => !c.isEmpty)).dedup
      let merged := if channel ∈ existing then existing else existing ++ [channel]
      upsert_run db run_date "sent" (joinComma (sortChannels merged))

/-! ### The summarization engine (`summarizer.py`, `llm.py`).
The LLM gateway is an oracle.  One `chat_json` call either yields a
parsed JSON object, raises `ValueError` (unparseable output), or
raises a transport error (an `httpx` exception surviving the retry
decorator, which re-raises after its final attempt). -/

inductive ChatOut : Type where
  /-- The call succeeded and the reply parsed to a JSON object. -/
  | ok : List (String × JVal) → ChatOut
  /-- The reply could not be parsed: `ValueError`. -/
  | parseFail : ChatOut
  /-- A transport-level exception propagated out of the retry wrapper. -/
  | transportErr : ChatOut

/-- Oracle for the (at most) three gateway calls one paper can cause:
the first `chat_json`, the raw `chat` of the repair attempt, and the
`chat_json` on the repair prompt. -/
structure LLMOracle where
  first : ChatOut
  repairChatOk : Bool
  repairParse : ChatOut

/-- The minimal fallback summary literal built in `summarize_one` and
`_do_one`: only the original title and link pair. -/
def minimalSummary (p : Paper) : List (String × JVal) :=
  [ ("title_zh", .str p.title),
    ("links", .obj [("abs", .str p.abs_url), ("pdf", .str p.pdf_url)]) ]

/-- Embedding of `summarize_one` (summarizer.py lines 110-141).  The
first `try` catches only `ValueError`; a transport error on the first
call therefore propagates (`.error`).  Inside the repair attempt every
exception is caught and yields the validated minimal summary. -/
def summarize_one (or : LLMOracle) (p : Paper) :
    Except Unit (List (String × JVal)) :=
  match or.first with
  | .ok kvs => .ok (validate_summary kvs)
  | .transportErr => .error ()
  | .parseFail =>
      if or.repairChatOk then
        match or.repairParse with
        | .ok kvs => .ok (validate_summary kvs)
        | _ => .ok (validate_summary (minimalSummary p))
      else .ok (validate_summary (minimalSummary p))

/-- Embedding of the links overwrite in `_do_one`:
`summary.setdefault("links", {})` followed by assigning
`links["abs"]` and `links["pdf"]` from the paper. -/
def overwriteLinks (p : Paper) (s : List (String × JVal)) :
    List (String × JVal) :=
  let s1 := if (assocLookup "links" s).isSome then s
            else assocSet "links" (.obj []) s
  let kvs :=
    match assocLookup "links" s1 with
    | some (JVal.obj kvs) => kvs
    | _ => []
  assocSet "links"
    (.obj (assocSet "pdf" (.str p.pdf_url) (assocSet "abs" (.str p.abs_url) kvs)))
    s1

/-- Embedding of the task body `_do_one` (summarizer.py lines 159-180):
on success the validated summary, with links overwritten, is saved; on
any exception the handler only logs and builds a fallback summary that
is neither saved nor used by the reassembly step, so the store is left
unchanged. -/
def do_one (or : LLMOracle) (p : Paper) (db : DB) : DB :=
  match summarize_one or p with
  | .ok s => save_summary db p.arxiv_id (overwriteLinks p s)
  | .error _ => db

/-- Embedding of `summarize_papers` (summarizer.py lines 143-199):
partition into cached/uncached, run one task per uncached paper (the
tasks write disjoint summary rows, so the concurrent interleaving is
equivalent to this sequential fold), then reassemble the output by
re-reading every input paper's summary from the store, pairing it with
`none` as the absent-marker. -/
def summarize_papers (papers : List Paper) (db : DB)
    (llm : Paper → LLMOracle) :
    List (Paper × Option (List (String × JVal))) × DB :=
  let toSummarize := papers.filter (fun p => !has_summary db p.arxiv_id)
  let db1 := toSummarize.foldl (fun d p => do_one (llm p) p d) db
  (papers.map (fun p => (p, get_summary db1 p.arxiv_id)), db1)

/-! ### The rate limiter (`llm.py` lines 19-42).
Time is `ℚ` (`time.monotonic()`).  The `asyncio.Lock` is held across
the sleep, so acquisitions are serialized: the effective entry time of
an acquisition is the later of its request time and the previous
acquisition's completion.  One timestamp is appended per acquisition,
at its completion time. -/

/-- Purge timestamps older than 60 seconds (`t > cutoff` is strict in
the source). -/
def pruneTs (now : ℚ) (ts : List ℚ) : List ℚ :=
  ts.filter (fun t => now - 60 < t)

/-- One `RateLimiter.acquire` at entry time `now`: prune, then if the
window is full (`len(ts) >= rpm`, hence nonempty for `rpm ≥ 1`; the
config enforces `rpm ≥ 1`) sleep until the oldest timestamp
`ts[0] + 60` leaves the window when that is still in the future, then
append the completion time.  Returns the new timestamp list and the
completion time `max now (ts[0] + 60)`. -/
def acquireStep (rpm : Nat) (ts : List ℚ) (now : ℚ) : List ℚ × ℚ :=
  if rpm ≤ (pruneTs now ts).length then
    (pruneTs now ts ++ [max now ((pruneTs now ts).headD now + 60)],
     max now ((pruneTs now ts).headD now + 60))
  else (pruneTs now ts ++ [now], now)

/-- Serialized execution of `acquire` for a list of request times:
each acquisition enters at `max request previousCompletion` (the lock),
and its completion time is emitted. -/
def limiterGo (rpm : Nat) (ts : List ℚ) (last : ℚ) : List ℚ → List ℚ
  | [] => []
  | r :: rs =>
      (acquireStep rpm ts (max r last)).2 ::
        limiterGo rpm (acquireStep rpm ts (max r last)).1
          (acquireStep rpm ts (max r last)).2 rs

/-- Completion times of a sequence of acquisitions against a fresh
`RateLimiter` (empty timestamp list, clock starting at 0). -/
def limiterRun (rpm : Nat) (requests : List ℚ) : List ℚ :=
  limiterGo rpm [] 0 requests

/-! ### Configuration and the push fan-out (`push/__init__.py`). -/

structure Config where
  /-- `cfg.push_channels`, already split and stripped by the settings
  property (each entry nonempty). -/
  push_channels : List (List Char)
  email_configured : Bool
  qq_configured : Bool

/-- Per-channel send oracle: whether the channel's send call returns
without raising. -/
structure PushOracle where
  emailOk : Bool
  qqOk : Bool

def emailCh : List Char := "email".toList

def qqCh : List Char := "qq".toList

/-- Embedding of `push_digest` (push/__init__.py lines 16-74): for each
configured channel (normalized by `strip().lower()`), record `True` on
a successful send and `False` when the channel is unconfigured, raises,
or is unknown.  Results form a dict keyed by the normalized name. -/
def push_digest (cfg : Config) (po : PushOracle) : List (List Char × Bool) :=
  if cfg.push_channels.isEmpty then []
  else
    cfg.push_channels.foldl
      (fun acc ch0 =>
        let ch := pyLower (pyStrip ch0)
        if ch = emailCh then
          assocSet emailCh (cfg.email_configured && po.emailOk) acc
        else if ch = qqCh then
          assocSet qqCh (cfg.qq_configured && po.qqOk) acc
        else assocSet ch false acc)
      []

/-! ### The run controller (`cli.cmd_run`, cli.py lines 39-100). -/

/-- Observable side effects of one `cmd_run` invocation, in order. -/
inductive Eff : Type where
  | fetch : Eff
  | summarize : Eff
  | render : Eff
  | push : Eff
  deriving DecidableEq, Repr

/-- Oracles for the external collaborators of one run: the fetch
result (or an exception), the LLM gateway per paper, the render/save
stage (file writes may raise), the per-channel sends, and the clock
used for `fetched_at`. -/
structure RunOracles where
  fetchRes : Except Unit (List Paper)
  llm : Paper → LLMOracle
  renderRes : Except Unit Unit
  push : PushOracle
  now : String

/-- The entry idempotency check of `cmd_run` (cli.py lines 51-59):
skip when the stored status is `"sent"`, at least one channel is
configured (`if configured and ...` — an empty set is falsy!), and
every configured channel is in the recorded sent set
(`set(sent_channels.split(","))` when the string is nonempty, else the
empty set). -/
def entrySkip (cfg : Config) (db : DB) (today : String) : Bool :=
  match get_run db today with
  | none => false
  | some run =>
      if run.status = "sent" then
        let alreadySent : List (List Char) :=
          if run.sent_channels.isEmpty then []
          else pySplitComma run.sent_channels
        !cfg.push_channels.isEmpty &&
          cfg.push_channels.all (fun c => decide (c ∈ alreadySent))
      else false

/-- The channels that succeeded in this invocation's push stage
(`[ch for ch, ok in results.items() if ok]`). -/
def sentOf (cfg : Config) (po : PushOracle) : List (List Char) :=
  ((push_digest cfg po).filter (fun r => r.2)).map (fun r => r.1)

/-- The store after step 1's bulk paper upsert. -/
def dbAfterPapers (db : DB) (or : RunOracles) (papers : List Paper) : DB :=
  { db with papers := (upsert_papers or.now papers db.papers).2 }

/-- The stages of `cmd_run` after a successful, nonempty fetch:
paper upsert, summarize, render, push, final status record. -/
def runFetched (cfg : Config) (db : DB) (or : RunOracles) (today : String)
    (papers : List Paper) : Except Unit Unit × DB × List Eff :=
  if papers.isEmpty then
    (.ok (), upsert_run db today "empty" [], [.fetch])
  else
    let s := summarize_papers papers (dbAfterPapers db or papers) or.llm
    match or.renderRes with
    | .error e =>
        (.error e, upsert_run s.2 today "failed" [],
         [.fetch, .summarize, .render])
    | .ok _ =>
        let sent := sentOf cfg or.push
        let db3 := upsert_run s.2 today
          (if sent.isEmpty then "rendered" else "sent") (joinComma sent)
        (.ok (), db3, [.fetch, .summarize, .render, .push])

/-- Embedding of `cmd_run` (cli.py lines 39-100): entry check, fetch,
upsert, summarize, render, push, final status record; any stage
exception records status `"failed"` and re-raises (the `.error`
result).  Returns the outcome, the final store, and the effect trace. -/
def cmd_run (cfg : Config) (db : DB) (or : RunOracles) (today : String) :
    Except Unit Unit × DB × List Eff :=
  if entrySkip cfg db today then (.ok (), db, [])
  else
    match or.fetchRes with
    | .error e => (.error e, upsert_run db today "failed" [], [.fetch])
    | .ok papers => runFetched cfg db or today papers

/-- Status order of the claimed run-state machine:
pending(0) → empty/rendered(1) → sent(2); anything else ranks 0. -/
def statusRank (s : String) : Nat :=
  if s = "sent" then 2
  else if s = "rendered" ∨ s = "empty" then 1
  else 0

/-! ### Concrete fixtures for witnesses and counterexamples. -/

/-- Sample paper used by concrete witnesses. -/
def samplePaper : Paper :=
  ⟨"2401.00001", "Paper One", "A. Author", "cs.AI",
   "2024-01-01", "2024-01-01", "http://abs", "http://pdf", "An abstract."⟩

def emptyDB : DB := ⟨[], [], []⟩

/-- A configuration with no push channels at all. -/
def cfgNoChannels : Config := ⟨[], false, false⟩

/-- A configuration whose only channel is an unconfigured `qq`. -/
def cfgQQOnly : Config := ⟨[qqCh], false, false⟩

/-- A configuration with a working `email` channel. -/
def cfgEmail : Config := ⟨[emailCh], true, false⟩

/-- A store whose run `2024-01-15` is already `sent` via `email`. -/
def dbSentRun : DB := ⟨[], [], [("2024-01-15", ⟨"sent", emailCh⟩)]⟩

/-- An LLM oracle whose first request always fails at transport level. -/
def llmTransport : Paper → LLMOracle := fun _ => ⟨.transportErr, false, .parseFail⟩

/-- An LLM oracle that always returns an empty (but parseable) object. -/
def llmEmptyObj : Paper → LLMOracle := fun _ => ⟨.ok [], true, .ok []⟩

/-- Run oracles: fetch returns no papers. -/
def oraclesEmptyFetch : RunOracles :=
  ⟨.ok [], llmEmptyObj, .ok (), ⟨false, false⟩, "t0"⟩

/-- Run oracles: fetch raises. -/
def oraclesFetchFail : RunOracles :=
  ⟨.error (), llmEmptyObj, .ok (), ⟨false, false⟩, "t0"⟩

/-- Run oracles: one paper fetched, transport failure on every LLM
call, sends succeed where configured. -/
def oraclesOnePaper : RunOracles :=
  ⟨.ok [samplePaper], llmTransport, .ok (), ⟨true, true⟩, "t0"⟩

/-! ## Theorems -/

/-! ### Claim C2: `upsert_paper` called twice, and duplicate no-ops. -/

/-- Claim C2: for every paper P whose identifier is not yet stored,
`upsert_paper(P)` returns `True` then `False`, leaves the store with
exactly one row for P's identifier, and the second call changes
nothing; moreover inserting any duplicate identifier is a no-op that
never overwrites the existing row. -/
theorem upsert_paper_twice (p : Paper) :
    (∀ (tbl : List PaperRow) (now1 now2 : String),
      (∀ row ∈ tbl, row.paper.arxiv_id ≠ p.arxiv_id) →
      (upsert_paper now1 p tbl).1 = true ∧
      (upsert_paper now2 p (upsert_paper now1 p tbl).2).1 = false ∧
      (upsert_paper now2 p (upsert_paper now1 p tbl).2).2 =
        (upsert_paper now1 p tbl).2 ∧
      ((upsert_paper now1 p tbl).2.filter
        (fun row => row.paper.arxiv_id == p.arxiv_id)).length = 1) ∧
    (∀ (tbl : List PaperRow) (now : String),
      (∃ row ∈ tbl, row.paper.arxiv_id = p.arxiv_id) →
      upsert_paper now p tbl = (false, tbl)) := by
  constructor
  · intro tbl now1 now2 hfresh
    have hany : tbl.any (fun row => row.paper.arxiv_id == p.arxiv_id) = false := by
      rw [List.any_eq_false]
      intro row hrow
      simpa using hfresh row hrow
    have h1 : upsert_paper now1 p tbl = (true, tbl ++ [⟨p, now1⟩]) := by
      simp [upsert_paper, hany]
    have hany2 : (tbl ++ [(⟨p, now1⟩ : PaperRow)]).any
        (fun row => row.paper.arxiv_id == p.arxiv_id) = true := by
      simp
    have h2 : upsert_paper now2 p (tbl ++ [⟨p, now1⟩]) =
        (false, tbl ++ [⟨p, now1⟩]) := by
      simp [upsert_paper, hany2]
    refine ⟨by simp [h1], by simp [h1, h2], by simp [h1, h2], ?_⟩
    have hfilter : tbl.filter (fun row => row.paper.arxiv_id == p.arxiv_id) = [] := by
      rw [List.filter_eq_nil_iff]
      intro row hrow
      simpa using hfresh row hrow
    simp [h1, List.filter_append, hfilter]
  · intro tbl now hdup
    have hany : tbl.any (fun row => row.paper.arxiv_id == p.arxiv_id) = true := by
      rw [List.any_eq_true]
      obtain ⟨row, hrow, heq⟩ := hdup
      exact ⟨row, hrow, by simpa using heq⟩
    simp [upsert_paper, hany]

/-- Witness for C2 at a concrete paper and the empty store. -/
theorem upsert_paper_twice_witness :
    (upsert_paper "t1" samplePaper []).1 = true ∧
    (upsert_paper "t2" samplePaper (upsert_paper "t1" samplePaper []).2).1 = false ∧
    upsert_paper "t3" samplePaper [⟨samplePaper, "t1"⟩] =
      (false, [⟨samplePaper, "t1"⟩]) := by
  obtain ⟨h1, h2⟩ := upsert_paper_twice samplePaper
  obtain ⟨ha, hb, _, _⟩ := h1 [] "t1" "t2" (by simp)
  exact ⟨ha, hb, h2 [⟨samplePaper, "t1"⟩] "t3" ⟨⟨samplePaper, "t1"⟩, by simp, rfl⟩⟩

/-! ### Claim C4: `_validate_summary` normalization. -/

theorem defaultStep_lookup_other (d : List (String × JVal)) (kd : String × JVal)
    (k : String) (h : k ≠ kd.1) :
    assocLookup k (defaultStep d kd) = assocLookup k d := by
  rw [defaultStep]
  cases hv : assocLookup kd.1 d with
  | none => exact assocLookup_set_other kd.1 k kd.2 d (fun he => h he.symm)
  | some v =>
    by_cases hf : falsy v
    · simp only [hf, if_pos]
      exact assocLookup_set_other kd.1 k kd.2 d (fun he => h he.symm)
    · simp [hf]

theorem fold_defaultStep_lookup_notmem (defs : List (String × JVal)) :
    ∀ (data : List (String × JVal)) (k : String), k ∉ defs.map Prod.fst →
      assocLookup k (defs.foldl defaultStep data) = assocLookup k data := by
  induction defs with
  | nil => intro data k _; rfl
  | cons kd rest ih =>
    intro data k hk
    have hk1 : k ≠ kd.1 := by
      intro he; exact hk (by simp [he])
    have hk2 : k ∉ rest.map Prod.fst := by
      intro he; exact hk (by simp [he])
    rw [List.foldl_cons, ih (defaultStep data kd) k hk2,
      defaultStep_lookup_other data kd k hk1]

theorem fold_defaultStep_lookup_mem (defs : List (String × JVal)) :
    ∀ (data : List (String × JVal)) (k : String) (dv : JVal),
      (defs.map Prod.fst).Nodup → assocLookup k defs = some dv →
      assocLookup k (defs.foldl defaultStep data) =
        some (match assocLookup k data with
              | none => dv
              | some v => if falsy v then dv else v) := by
  induction defs with
  | nil => intro data k dv _ hdv; simp [assocLookup] at hdv
  | cons kd rest ih =>
    intro data k dv hnodup hdv
    obtain ⟨kd1, kd2⟩ := kd
    rw [List.map_cons, List.nodup_cons] at hnodup
    by_cases hk : kd1 = k
    · subst hk
      rw [assocLookup, if_pos rfl] at hdv
      injection hdv with hdv
      subst hdv
      have hnot : kd1 ∉ rest.map Prod.fst := hnodup.1
      rw [List.foldl_cons, fold_defaultStep_lookup_notmem rest _ kd1 hnot]
      rw [defaultStep]
      cases hv : assocLookup kd1 data with
      | none => simp [assocLookup_set_self]
      | some v =>
        by_cases hf : falsy v
        · simp [hf, assocLookup_set_self]
        · simp [hf, hv]
    · rw [assocLookup, if_neg hk] at hdv
      rw [List.foldl_cons, ih (defaultStep data ⟨kd1, kd2⟩) k dv hnodup.2 hdv,
        defaultStep_lookup_other data ⟨kd1, kd2⟩ k (fun he => hk he.symm)]

/-- Characterization of the `contributions_zh` field after
`_validate_summary`. -/
theorem validate_contrib_char (data : List (String × JVal)) :
    assocLookup "contributions_zh" (validate_summary data) =
      some (match assocLookup "contributions_zh" data with
            | none => .arr [.str "unknown"]
            | some v =>
                if falsy v then .arr [.str "unknown"]
                else if isArr v then v else .arr [.str (pyStrOf v)]) := by
  rw [validate_summary]
  have hnodup : (summaryDefaults.map Prod.fst).Nodup := by decide
  have hdv : assocLookup "contributions_zh" summaryDefaults =
      some (.arr [.str "unknown"]) := by rfl
  have h1 := fold_defaultStep_lookup_mem summaryDefaults data
    "contributions_zh" (.arr [.str "unknown"]) hnodup hdv
  set d1 := summaryDefaults.foldl defaultStep data with hd1
  have hc : ∀ (e : JVal) (d : List (String × JVal)),
      assocLookup "contributions_zh" (assocSet "links" e d) =
        assocLookup "contributions_zh" d :=
    fun e d => assocLookup_set_other "links" "contributions_zh" e d (by decide)
  -- the value of contributions after the defaults loop
  cases hv : assocLookup "contributions_zh" data with
  | none =>
    rw [hv] at h1
    rw [h1]
    cases hl : assocLookup "links" d1 with
    | none => simp [hl, hc, h1]
    | some lv =>
      cases lv <;> simp [hl, hc, h1]
  | some v =>
    rw [hv] at h1
    by_cases hf : falsy v
    · simp only [hf, if_pos] at h1
      rw [h1]
      cases hl : assocLookup "links" d1 with
      | none => simp [hl, hc, h1, hf]
      | some lv => cases lv <;> simp [hl, hc, h1, hf]
    · simp only [hf, if_neg, Bool.false_eq_true] at h1
      rw [h1]
      cases v with
      | arr l =>
        simp only [isArr, if_true]
        cases hl : assocLookup "links" d1 with
        | none => simp [hl, hc, h1, hf]
        | some lv => cases lv <;> simp [hl, hc, h1, hf]
      | null =>
        simp [falsy] at hf
      | bool b =>
        cases hl : assocLookup "links"
            (assocSet "contributions_zh" (.arr [.str (pyStrOf (.bool b))]) d1) with
        | none => simp [hl, hc, assocLookup_set_self, isArr, hf]
        | some lv => cases lv <;> simp [hl, hc, assocLookup_set_self, isArr, hf]
      | num n =>
        cases hl : assocLookup "links"
            (assocSet "contributions_zh" (.arr [.str (pyStrOf (.num n))]) d1) with
        | none => simp [hl, hc, assocLookup_set_self, isArr, hf]
        | some lv => cases lv <;> simp [hl, hc, assocLookup_set_self, isArr, hf]
      | str s =>
        cases hl : assocLookup "links"
            (assocSet "contributions_zh" (.arr [.str (pyStrOf (.str s))]) d1) with
        | none => simp [hl, hc, assocLookup_set_self, isArr, hf]
        | some lv => cases lv <;> simp [hl, hc, assocLookup_set_self, isArr, hf]
      | obj kvs =>
        cases hl : assocLookup "links"
            (assocSet "contributions_zh" (.arr [.str (pyStrOf (.obj kvs))]) d1) with
        | none => simp [hl, hc, assocLookup_set_self, isArr, hf]
        | some lv => cases lv <;> simp [hl, hc, assocLookup_set_self, isArr, hf]

/-- Characterization of the `links` field after `_validate_summary`. -/
theorem validate_links_char (data : List (String × JVal)) :
    assocLookup "links" (validate_summary data) =
      some (match assocLookup "links" data with
            | none => defaultLinks
            | some v =>
                if falsy v then defaultLinks
                else if isObj v then v else defaultLinks) := by
  rw [validate_summary]
  have hnodup : (summaryDefaults.map Prod.fst).Nodup := by decide
  have h1 := fold_defaultStep_lookup_mem summaryDefaults data
    "links" defaultLinks hnodup (by rfl)
  set d1 := summaryDefaults.foldl defaultStep data with hd1
  have hl2 : ∀ (e : JVal),
      assocLookup "links" (assocSet "contributions_zh" e d1) =
        assocLookup "links" d1 :=
    fun e => assocLookup_set_other "contributions_zh" "links" e d1 (by decide)
  -- the links value after the defaults loop
  cases hv : assocLookup "links" data with
  | none =>
    rw [hv] at h1
    cases hcv : assocLookup "contributions_zh" d1 with
    | none => simp [hl2, h1, assocLookup_set_self, defaultLinks, hcv]
    | some cv =>
      cases cv <;>
        simp [hcv, hl2, h1, assocLookup_set_self, defaultLinks]
  | some v =>
    rw [hv] at h1
    by_cases hf : falsy v
    · simp only [hf, if_pos] at h1
      cases hcv : assocLookup "contributions_zh" d1 with
      | none => simp [hcv, hl2, h1, assocLookup_set_self, defaultLinks, hf]
      | some cv =>
        cases cv <;>
          simp [hcv, hl2, h1, assocLookup_set_self, defaultLinks, hf]
    · simp only [hf, if_neg, Bool.false_eq_true] at h1
      cases v with
      | obj kvs =>
        cases hcv : assocLookup "contributions_zh" d1 with
        | none => simp [hcv, hl2, h1, assocLookup_set_self, isObj, hf]
        | some cv =>
          cases cv <;>
            simp [hcv, hl2, h1, assocLookup_set_self, isObj, hf]
      | null => simp [falsy] at hf
      | bool b =>
        cases hcv : assocLookup "contributions_zh" d1 with
        | none => simp [hcv, hl2, h1, assocLookup_set_self, isObj, hf]
        | some cv =>
          cases cv <;>
            simp [hcv, hl2, h1, assocLookup_set_self, isObj, hf]
      | num n =>
        cases hcv : assocLookup "contributions_zh" d1 with
        | none => simp [hcv, hl2, h1, assocLookup_set_self, isObj, hf]
        | some cv =>
          cases cv <;>
            simp [hcv, hl2, h1, assocLookup_set_self, isObj, hf]
      | str s =>
        cases hcv : assocLookup "contributions_zh" d1 with
        | none => simp [hcv, hl2, h1, assocLookup_set_self, isObj, hf]
        | some cv =>
          cases cv <;>
            simp [hcv, hl2, h1, assocLookup_set_self, isObj, hf]
      | arr l =>
        cases hcv : assocLookup "contributions_zh" d1 with
        | none => simp [hcv, hl2, h1, assocLookup_set_self, isObj, hf]
        | some cv =>
          cases cv <;>
            simp [hcv, hl2, h1, assocLookup_set_self, isObj, hf]

/-- Characterization of every required field other than
`contributions_zh` and `links` after `_validate_summary`. -/
theorem validate_other_char (data : List (String × JVal)) (k : String)
    (dv : JVal) (hdv : assocLookup k summaryDefaults = some dv)
    (hk1 : k ≠ "contributions_zh") (hk2 : k ≠ "links") :
    assocLookup k (validate_summary data) =
      some (match assocLookup k data with
            | none => dv
            | some v => if falsy v then dv else v) := by
  rw [validate_summary]
  have hnodup : (summaryDefaults.map Prod.fst).Nodup := by decide
  have h1 := fold_defaultStep_lookup_mem summaryDefaults data k dv hnodup hdv
  set d1 := summaryDefaults.foldl defaultStep data with hd1
  have hstep2 : ∀ (e : JVal),
      assocLookup k (assocSet "contributions_zh" e d1) = assocLookup k d1 :=
    fun e => assocLookup_set_other "contributions_zh" k e d1 (fun h => hk1 h.symm)
  have hstep3 : ∀ (e : JVal) (d : List (String × JVal)),
      assocLookup k (assocSet "links" e d) = assocLookup k d :=
    fun e d => assocLookup_set_other "links" k e d (fun h => hk2 h.symm)
  cases hcv : assocLookup "contributions_zh" d1 with
  | none =>
    cases hlv : assocLookup "links" (assocSet "contributions_zh"
        (.arr [.str (pyStrOf (.str "unknown"))]) d1) with
    | none => simp [hcv, hlv, hstep2, hstep3, h1]
    | some lv => cases lv <;> simp [hcv, hlv, hstep2, hstep3, h1]
  | some cv =>
    cases cv with
    | arr l =>
      cases hlv : assocLookup "links" d1 with
      | none => simp [hcv, hlv, hstep2, hstep3, h1]
      | some lv => cases lv <;> simp [hcv, hlv, hstep2, hstep3, h1]
    | null =>
      cases hlv : assocLookup "links" (assocSet "contributions_zh"
          (.arr [.str (pyStrOf JVal.null)]) d1) with
      | none => simp [hcv, hlv, hstep2, hstep3, h1]
      | some lv => cases lv <;> simp [hcv, hlv, hstep2, hstep3, h1]
    | bool b =>
      cases hlv : assocLookup "links" (assocSet "contributions_zh"
          (.arr [.str (pyStrOf (.bool b))]) d1) with
      | none => simp [hcv, hlv, hstep2, hstep3, h1]
      | some lv => cases lv <;> simp [hcv, hlv, hstep2, hstep3, h1]
    | num n =>
      cases hlv : assocLookup "links" (assocSet "contributions_zh"
          (.arr [.str (pyStrOf (.num n))]) d1) with
      | none => simp [hcv, hlv, hstep2, hstep3, h1]
      | some lv => cases lv <;> simp [hcv, hlv, hstep2, hstep3, h1]
    | str s =>
      cases hlv : assocLookup "links" (assocSet "contributions_zh"
          (.arr [.str (pyStrOf (.str s))]) d1) with
      | none => simp [hcv, hlv, hstep2, hstep3, h1]
      | some lv => cases lv <;> simp [hcv, hlv, hstep2, hstep3, h1]
    | obj kvs =>
      cases hlv : assocLookup "links" (assocSet "contributions_zh"
          (.arr [.str (pyStrOf (.obj kvs))]) d1) with
      | none => simp [hcv, hlv, hstep2, hstep3, h1]
      | some lv => cases lv <;> simp [hcv, hlv, hstep2, hstep3, h1]

/-- Claim C4: `_validate_summary` returns an object in which every
required field is present and non-falsy; absent-or-falsy fields are
replaced by their defined defaults (`"unknown"` for text fields,
`["unknown"]` for contributions, `{abs:"",pdf:""}` for links); a
non-falsy non-list contributions value becomes the one-element list of
its string form; and a links value that is not a mapping is replaced by
the default mapping. -/
theorem validate_summary_normalizes (data : List (String × JVal)) :
    (∀ k ∈ summaryDefaults.map Prod.fst,
      ∃ v, assocLookup k (validate_summary data) = some v ∧ falsy v = false) ∧
    (∀ kd ∈ summaryDefaults, kd.1 ≠ "contributions_zh" → kd.1 ≠ "links" →
      (assocLookup kd.1 data = none ∨
        ∃ v, assocLookup kd.1 data = some v ∧ falsy v = true) →
      assocLookup kd.1 (validate_summary data) = some kd.2) ∧
    ((assocLookup "contributions_zh" data = none ∨
        ∃ v, assocLookup "contributions_zh" data = some v ∧ falsy v = true) →
      assocLookup "contributions_zh" (validate_summary data) =
        some (.arr [.str "unknown"])) ∧
    ((assocLookup "links" data = none ∨
        ∃ v, assocLookup "links" data = some v ∧ falsy v = true) →
      assocLookup "links" (validate_summary data) = some defaultLinks) ∧
    (∀ v, assocLookup "contributions_zh" data = some v → falsy v = false →
      isArr v = false →
      assocLookup "contributions_zh" (validate_summary data) =
        some (.arr [.str (pyStrOf v)])) ∧
    (∀ v, assocLookup "links" data = some v → isObj v = false →
      assocLookup "links" (validate_summary data) = some defaultLinks) := by
  have hother : ∀ (k : String) (dv : JVal),
      assocLookup k summaryDefaults = some dv → falsy dv = false →
      k ≠ "contributions_zh" → k ≠ "links" →
      ∃ v, assocLookup k (validate_summary data) = some v ∧ falsy v = false := by
    intro k dv hdv hfd hk1 hk2
    rw [validate_other_char data k dv hdv hk1 hk2]
    cases hv : assocLookup k data with
    | none => exact ⟨dv, rfl, hfd⟩
    | some v =>
      by_cases hf : falsy v
      · exact ⟨dv, by simp [hf], hfd⟩
      · exact ⟨v, by simp [hf], by simpa using hf⟩
  have hcontrib : ∃ v,
      assocLookup "contributions_zh" (validate_summary data) = some v ∧
        falsy v = false := by
    rw [validate_contrib_char data]
    cases hv : assocLookup "contributions_zh" data with
    | none => exact ⟨.arr [.str "unknown"], rfl, by decide⟩
    | some v =>
      by_cases hf : falsy v
      · exact ⟨.arr [.str "unknown"], by simp [hf], by decide⟩
      · by_cases ha : isArr v
        · refine ⟨v, by simp [hf, ha], by simpa using hf⟩
        · exact ⟨.arr [.str (pyStrOf v)], by simp [hf, ha], rfl⟩
  have hlinks : ∃ v,
      assocLookup "links" (validate_summary data) = some v ∧
        falsy v = false := by
    rw [validate_links_char data]
    cases hv : assocLookup "links" data with
    | none => exact ⟨defaultLinks, rfl, by decide⟩
    | some v =>
      by_cases hf : falsy v
      · exact ⟨defaultLinks, by simp [hf], by decide⟩
      · by_cases ho : isObj v
        · exact ⟨v, by simp [hf, ho], by simpa using hf⟩
        · exact ⟨defaultLinks, by simp [hf, ho], by decide⟩
  refine ⟨?_, ?_, ?_, ?_, ?_, ?_⟩
  · intro k hk
    simp only [summaryDefaults, List.map] at hk
    fin_cases hk
    · exact hother "title_zh" (.str "unknown") rfl (by decide)
        (by decide) (by decide)
    · exact hother "tldr_zh" (.str "unknown") rfl (by decide)
        (by decide) (by decide)
    · exact hcontrib
    · exact hother "method_zh" (.str "unknown") rfl (by decide)
        (by decide) (by decide)
    · exact hother "experiments_zh" (.str "unknown") rfl (by decide)
        (by decide) (by decide)
    · exact hother "results_zh" (.str "unknown") rfl (by decide)
        (by decide) (by decide)
    · exact hother "limitations_zh" (.str "unknown") rfl (by decide)
        (by decide) (by decide)
    · exact hother "who_should_read_zh" (.str "unknown") rfl (by decide)
        (by decide) (by decide)
    · exact hlinks
  · intro kd hkd hk1 hk2 hmiss
    have hdv : assocLookup kd.1 summaryDefaults = some kd.2 := by
      simp only [summaryDefaults] at hkd
      fin_cases hkd <;> rfl
    rw [validate_other_char data kd.1 kd.2 hdv hk1 hk2]
    rcases hmiss with hmiss | ⟨v, hv, hf⟩
    · rw [hmiss]
    · rw [hv]; simp [hf]
  · intro hmiss
    rw [validate_contrib_char data]
    rcases hmiss with hmiss | ⟨v, hv, hf⟩
    · rw [hmiss]
    · rw [hv]; simp [hf]
  · intro hmiss
    rw [validate_links_char data]
    rcases hmiss with hmiss | ⟨v, hv, hf⟩
    · rw [hmiss]
    · rw [hv]; simp [hf]
  · intro v hv hf ha
    rw [validate_contrib_char data, hv]
    simp [hf, ha]
  · intro v hv ho
    rw [validate_links_char data, hv]
    by_cases hf : falsy v
    · simp [hf]
    · simp [hf, ho]

/-- Witness for C4 at a concrete malformed summary: a scalar
`contributions_zh`, a non-mapping `links`, and a falsy `title_zh`. -/
theorem validate_summary_normalizes_witness :
    assocLookup "contributions_zh"
        (validate_summary
          [("contributions_zh", .str "contribution A"),
           ("links", .str "bad"), ("title_zh", .str "")]) =
      some (.arr [.str "contribution A"]) ∧
    assocLookup "links"
        (validate_summary
          [("contributions_zh", .str "contribution A"),
           ("links", .str "bad"), ("title_zh", .str "")]) =
      some defaultLinks ∧
    assocLookup "title_zh"
        (validate_summary
          [("contributions_zh", .str "contribution A"),
           ("links", .str "bad"), ("title_zh", .str "")]) =
      some (.str "unknown") := by
  have h := validate_summary_normalizes
    [("contributions_zh", .str "contribution A"),
     ("links", .str "bad"), ("title_zh", .str "")]
  refine ⟨h.2.2.2.2.1 (.str "contribution A") rfl (by decide) (by decide),
          h.2.2.2.2.2 (.str "bad") rfl (by decide), ?_⟩
  exact h.2.1 ("title_zh", .str "unknown") (by simp [summaryDefaults])
    (by decide) (by decide) (Or.inr ⟨.str "", rfl, by decide⟩)

/-! ### Claim C10: `was_sent` on the empty channel name. -/

/-- Claim C10: any stored run whose sent-channel string is empty (as
recorded by the `empty`/`failed` paths, where `upsert_run` defaults
`sent_channels` to `""`) reports `was_sent(run_id, "") == True`,
because `"".split(",") == [""]`. -/
theorem was_sent_empty_channel (db : DB) (rd : String) (run : RunRow)
    (hrun : get_run db rd = some run) (hsc : run.sent_channels = []) :
    was_sent db rd [] = true := by
  rw [was_sent, hrun]
  simp only [hsc]
  decide

/-- Witness for C10: a store whose run was recorded through
`upsert_run` with status `"empty"` and the defaulted empty channel
string. -/
theorem was_sent_empty_channel_witness :
    was_sent (upsert_run ⟨[], [], []⟩ "2024-01-15" "empty" []) "2024-01-15" [] =
      true :=
  was_sent_empty_channel (upsert_run ⟨[], [], []⟩ "2024-01-15" "empty" [])
    "2024-01-15" ⟨"empty", []⟩ rfl rfl

/-! ### Claim C9: `mark_sent` is additive. -/

/-- After `mark_sent`, the stored run has status `"sent"` and its
channel string is the comma-join of a list that contains the new
channel, consists of nonempty comma-free pieces, and retains every
previously sent (nonempty) channel. -/
theorem mark_sent_spec (db : DB) (rd : String) (ch : List Char)
    (hne : ch ≠ []) (hfree : ',' ∉ ch) :
    ∃ sc : List (List Char),
      get_run (mark_sent db rd ch) rd = some ⟨"sent", joinComma sc⟩ ∧
      ch ∈ sc ∧
      (∀ c ∈ sc, c ≠ [] ∧ ',' ∉ c) ∧
      (∀ c, c ≠ [] → was_sent db rd c = true → c ∈ sc) := by
  cases hr : get_run db rd with
  | none =>
    refine ⟨[ch], ?_, by simp, ?_, ?_⟩
    · show get_run (mark_sent db rd ch) rd = some ⟨"sent", ch⟩
      rw [mark_sent, hr]
      exact assocLookup_set_self rd ⟨"sent", ch⟩ db.runs
    · intro c hc
      rw [List.mem_singleton] at hc
      exact hc ▸ ⟨hne, hfree⟩
    · intro c _ hw
      rw [was_sent, hr] at hw
      exact absurd hw (by simp)
  | some run =>
    have hmem : ∀ c ∈ (if ch ∈ ((pySplitComma run.sent_channels).filter
          (fun c => !c.isEmpty)).dedup
        then ((pySplitComma run.sent_channels).filter (fun c => !c.isEmpty)).dedup
        else ((pySplitComma run.sent_channels).filter (fun c => !c.isEmpty)).dedup
          ++ [ch]),
        c ∈ ((pySplitComma run.sent_channels).filter
          (fun c => !c.isEmpty)).dedup ∨ c = ch := by
      intro c hc
      by_cases hin : ch ∈ ((pySplitComma run.sent_channels).filter
          (fun c => !c.isEmpty)).dedup
      · rw [if_pos hin] at hc; exact Or.inl hc
      · rw [if_neg hin, List.mem_append, List.mem_singleton] at hc; exact hc
    refine ⟨sortChannels (if ch ∈ ((pySplitComma run.sent_channels).filter
        (fun c => !c.isEmpty)).dedup
      then ((pySplitComma run.sent_channels).filter (fun c => !c.isEmpty)).dedup
      else ((pySplitComma run.sent_channels).filter (fun c => !c.isEmpty)).dedup
        ++ [ch]), ?_, ?_, ?_, ?_⟩
    · show get_run (mark_sent db rd ch) rd = _
      rw [mark_sent, hr]
      exact assocLookup_set_self rd _ db.runs
    · rw [mem_sortChannels]
      by_cases hin : ch ∈ ((pySplitComma run.sent_channels).filter
          (fun c => !c.isEmpty)).dedup
      · rw [if_pos hin]; exact hin
      · rw [if_neg hin]; simp
    · intro c hc
      rw [mem_sortChannels] at hc
      rcases hmem c hc with hc2 | hc2
      · rw [List.mem_dedup, List.mem_filter] at hc2
        refine ⟨?_, comma_not_mem_pySplitComma run.sent_channels c hc2.1⟩
        intro hnil
        rw [hnil] at hc2
        simp at hc2
      · exact hc2 ▸ ⟨hne, hfree⟩
    · intro c hcne hw
      rw [was_sent, hr] at hw
      have hcmem : c ∈ pySplitComma run.sent_channels := by
        simpa using hw
      rw [mem_sortChannels]
      have hdedup : c ∈ ((pySplitComma run.sent_channels).filter
          (fun c => !c.isEmpty)).dedup := by
        rw [List.mem_dedup, List.mem_filter]
        refine ⟨hcmem, ?_⟩
        cases c with
        | nil => exact absurd rfl hcne
        | cons a l => rfl
      by_cases hin : ch ∈ ((pySplitComma run.sent_channels).filter
          (fun c => !c.isEmpty)).dedup
      · rw [if_pos hin]; exact hdedup
      · rw [if_neg hin]; exact List.mem_append_left _ hdedup

/-- A channel in a well-formed joined channel list is reported as sent. -/
theorem was_sent_of_mem (db2 : DB) (rd : String) (sc : List (List Char))
    (c : List Char) (hrun : get_run db2 rd = some ⟨"sent", joinComma sc⟩)
    (hwf : ∀ p ∈ sc, p ≠ [] ∧ ',' ∉ p) (hsc : sc ≠ []) (hc : c ∈ sc) :
    was_sent db2 rd c = true := by
  rw [was_sent, hrun]
  have := pySplitComma_joinComma sc hsc (fun p hp => (hwf p hp).2)
  simp [this, hc]

/-- Claim C9: `mark_sent(rd, "email")` then `mark_sent(rd, "qq")`
leaves a state in which both channels are reported sent — `mark_sent`
merges rather than overwrites, for any prior store contents. -/
theorem mark_sent_additive (db : DB) (rd : String) :
    was_sent (mark_sent (mark_sent db rd emailCh) rd qqCh) rd emailCh = true ∧
    was_sent (mark_sent (mark_sent db rd emailCh) rd qqCh) rd qqCh = true := by
  obtain ⟨sc1, hr1, hm1, hwf1, _⟩ :=
    mark_sent_spec db rd emailCh (by decide) (by decide)
  obtain ⟨sc2, hr2, hm2, hwf2, hpres2⟩ :=
    mark_sent_spec (mark_sent db rd emailCh) rd qqCh (by decide) (by decide)
  have hws1 : was_sent (mark_sent db rd emailCh) rd emailCh = true :=
    was_sent_of_mem _ rd sc1 emailCh hr1 hwf1 (List.ne_nil_of_mem hm1) hm1
  have hemail2 : emailCh ∈ sc2 := hpres2 emailCh (by decide) hws1
  exact ⟨was_sent_of_mem _ rd sc2 emailCh hr2 hwf2 (List.ne_nil_of_mem hm2) hemail2,
         was_sent_of_mem _ rd sc2 qqCh hr2 hwf2 (List.ne_nil_of_mem hm2) hm2⟩

/-! ### Claim C3: entry idempotency check of `cmd_run`. -/

/-- Counterexample to claim C3 as stated: with zero configured channels
every configured channel is (vacuously) in the recorded sent set of the
already-`sent` run, yet `cmd_run` does not terminate immediately — it
performs the fetch and overwrites the run record with status
`"empty"`, because `if configured and ...` short-circuits on the falsy
empty set. -/
theorem cmd_run_skip_cex :
    get_run dbSentRun "2024-01-15" = some ⟨"sent", emailCh⟩ ∧
    (∀ c ∈ cfgNoChannels.push_channels,
      c ∈ pySplitComma ("email".toList)) ∧
    (cmd_run cfgNoChannels dbSentRun oraclesEmptyFetch "2024-01-15").2.2 =
      [Eff.fetch] ∧
    get_run (cmd_run cfgNoChannels dbSentRun oraclesEmptyFetch
      "2024-01-15").2.1 "2024-01-15" = some ⟨"empty", []⟩ := by
  refine ⟨rfl, ?_, rfl, rfl⟩
  intro c hc
  simp [cfgNoChannels] at hc

/-- Claim C3 (amended: at least one channel must be configured): if the
stored run is `sent` and the nonempty configured channel set is
contained in the recorded sent set, `cmd_run` returns immediately with
the store untouched and an empty effect trace. -/
theorem cmd_run_skip_idempotent (cfg : Config) (db : DB) (or : RunOracles)
    (today : String) (run : RunRow)
    (hrun : get_run db today = some run) (hst : run.status = "sent")
    (hchn : cfg.push_channels ≠ [])
    (hsub : ∀ c ∈ cfg.push_channels,
      c ∈ (if run.sent_channels.isEmpty then ([] : List (List Char))
           else pySplitComma run.sent_channels)) :
    cmd_run cfg db or today = (.ok (), db, []) := by
  have hskip : entrySkip cfg db today = true := by
    rw [entrySkip, hrun]
    show (if run.status = "sent" then
        !cfg.push_channels.isEmpty && cfg.push_channels.all (fun c => decide
          (c ∈ (if run.sent_channels.isEmpty = true then ([] : List (List Char))
                else pySplitComma run.sent_channels)))
      else false) = true
    rw [if_pos hst, Bool.and_eq_true]
    constructor
    · cases hch : cfg.push_channels with
      | nil => exact absurd hch hchn
      | cons a l => simp [hch]
    · rw [List.all_eq_true]
      intro c hc
      simpa using hsub c hc
  rw [cmd_run, if_pos hskip]

/-- Witness for the amended C3: concrete `sent` run with channel
`email`, configured channels `["email"]`. -/
theorem cmd_run_skip_idempotent_witness :
    cmd_run cfgEmail dbSentRun oraclesOnePaper "2024-01-15" =
      (.ok (), dbSentRun, []) :=
  cmd_run_skip_idempotent cfgEmail dbSentRun oraclesOnePaper "2024-01-15"
    ⟨"sent", emailCh⟩ rfl rfl (by decide) (by decide)

/-! ### The five possible outcomes of one `cmd_run` invocation. -/

theorem cmd_run_cases (cfg : Config) (db : DB) (or : RunOracles)
    (today : String) :
    (entrySkip cfg db today = true ∧
      cmd_run cfg db or today = (.ok (), db, [])) ∨
    (∃ e, or.fetchRes = .error e ∧
      cmd_run cfg db or today =
        (.error e, upsert_run db today "failed" [], [.fetch])) ∨
    (∃ papers, or.fetchRes = .ok papers ∧ papers = [] ∧
      cmd_run cfg db or today =
        (.ok (), upsert_run db today "empty" [], [.fetch])) ∨
    (∃ papers e, or.fetchRes = .ok papers ∧ papers ≠ [] ∧
      or.renderRes = .error e ∧
      cmd_run cfg db or today =
        (.error e,
         upsert_run (summarize_papers papers (dbAfterPapers db or papers)
           or.llm).2 today "failed" [],
         [.fetch, .summarize, .render])) ∨
    (∃ papers, or.fetchRes = .ok papers ∧ papers ≠ [] ∧
      or.renderRes = .ok () ∧
      cmd_run cfg db or today =
        (.ok (),
         upsert_run (summarize_papers papers (dbAfterPapers db or papers)
             or.llm).2 today
           (if (sentOf cfg or.push).isEmpty then "rendered" else "sent")
           (joinComma (sentOf cfg or.push)),
         [.fetch, .summarize, .render, .push])) := by
  by_cases hskip : entrySkip cfg db today
  · left
    exact ⟨hskip, by rw [cmd_run, if_pos hskip]⟩
  · right
    rw [cmd_run, if_neg hskip]
    cases hf : or.fetchRes with
    | error e => exact Or.inl ⟨e, rfl, rfl⟩
    | ok papers =>
      right
      by_cases hp : papers.isEmpty
      · left
        refine ⟨papers, rfl, List.isEmpty_iff.mp hp, ?_⟩
        show runFetched cfg db or today papers = _
        unfold runFetched
        rw [if_pos hp]
      · right
        have hpne : papers ≠ [] := fun h => hp (by simp [h])
        cases hr : or.renderRes with
        | error e =>
          left
          refine ⟨papers, e, rfl, hpne, rfl, ?_⟩
          show runFetched cfg db or today papers = _
          unfold runFetched
          rw [if_neg hp, hr]
        | ok u =>
          right
          refine ⟨papers, rfl, hpne, rfl, ?_⟩
          show runFetched cfg db or today papers = _
          unfold runFetched
          rw [if_neg hp, hr]

/-! ### Claim C8: failures record status `failed` and re-raise. -/

/-- Claim C8: whenever `cmd_run` propagates an exception (its outcome
is `.error`), the store records status `"failed"` (with the defaulted
empty channel string) for the run identifier. -/
theorem cmd_run_failure_records_failed (cfg : Config) (db : DB)
    (or : RunOracles) (today : String) (e : Unit)
    (herr : (cmd_run cfg db or today).1 = .error e) :
    get_run (cmd_run cfg db or today).2.1 today = some ⟨"failed", []⟩ := by
  rcases cmd_run_cases cfg db or today with
    ⟨_, heq⟩ | ⟨e2, _, heq⟩ | ⟨papers, _, _, heq⟩ |
    ⟨papers, e2, _, _, _, heq⟩ | ⟨papers, _, _, _, heq⟩
  · rw [heq] at herr; simp at herr
  · rw [heq]
    exact assocLookup_set_self today ⟨"failed", []⟩ db.runs
  · rw [heq] at herr; simp at herr
  · rw [heq]
    exact assocLookup_set_self today (⟨"failed", []⟩ : RunRow) _
  · rw [heq] at herr; simp at herr

/-! ### Claim C7: the final status recorded by the push stage. -/

/-- Claim C7: when `cmd_run` reaches the push stage, the recorded run
status is `"sent"` exactly when at least one channel succeeded and
`"rendered"` otherwise (covering both all-channels-failed and
no-channels-configured), and the recorded channel string is the
comma-join of exactly the channels that succeeded in this invocation;
with no configured channels the success list is empty, so no `"sent"`
transition can occur. -/
theorem cmd_run_push_status (cfg : Config) (db : DB) (or : RunOracles)
    (today : String) (papers : List Paper)
    (hskip : entrySkip cfg db today = false)
    (hfetch : or.fetchRes = .ok papers) (hpap : papers ≠ [])
    (hrender : or.renderRes = .ok ()) :
    get_run (cmd_run cfg db or today).2.1 today =
      some ⟨if (sentOf cfg or.push).isEmpty then "rendered" else "sent",
            joinComma (sentOf cfg or.push)⟩ ∧
    (cfg.push_channels = [] → sentOf cfg or.push = []) := by
  constructor
  · rcases cmd_run_cases cfg db or today with
      ⟨hs, _⟩ | ⟨e2, hf2, _⟩ | ⟨papers2, hf2, hnil, _⟩ |
      ⟨papers2, e2, hf2, _, hr2, _⟩ | ⟨papers2, hf2, _, _, heq⟩
    · rw [hs] at hskip; exact absurd hskip (by simp)
    · rw [hfetch] at hf2; exact absurd hf2 (by simp)
    · rw [hfetch] at hf2
      injection hf2 with h
      exact absurd (h ▸ hnil) hpap
    · rw [hrender] at hr2; exact absurd hr2 (by simp)
    · rw [heq]
      exact assocLookup_set_self today
        (⟨if (sentOf cfg or.push).isEmpty then "rendered" else "sent",
          joinComma (sentOf cfg or.push)⟩ : RunRow) _
  · intro h
    simp [sentOf, push_digest, h]

/-- Witness for C7: one configured working email channel; the run is
recorded as `sent` via exactly `email`. -/
theorem cmd_run_push_status_witness :
    get_run (cmd_run cfgEmail emptyDB oraclesOnePaper
      "2024-01-15").2.1 "2024-01-15" =
      some ⟨if (sentOf cfgEmail oraclesOnePaper.push).isEmpty
            then "rendered" else "sent",
            joinComma (sentOf cfgEmail oraclesOnePaper.push)⟩ ∧
    sentOf cfgEmail oraclesOnePaper.push = [emailCh] :=
  ⟨(cmd_run_push_status cfgEmail emptyDB oraclesOnePaper "2024-01-15"
      [samplePaper] rfl rfl (by decide) rfl).1, by decide⟩

/-! ### Claim C6: monotonicity of the run record. -/

/-- Counterexample to claim C6 as stated: re-invoking a run already
recorded as `sent` via `email`, with configured channels `["qq"]`
(unconfigured, so the push fails), ends with the run overwritten to
`⟨"rendered", ""⟩` — the status moves backwards from `sent` and the
sent-channel set loses `email`. -/
theorem cmd_run_monotone_cex :
    get_run dbSentRun "2024-01-15" = some ⟨"sent", emailCh⟩ ∧
    was_sent dbSentRun "2024-01-15" emailCh = true ∧
    get_run (cmd_run cfgQQOnly dbSentRun oraclesOnePaper
      "2024-01-15").2.1 "2024-01-15" = some ⟨"rendered", []⟩ ∧
    was_sent (cmd_run cfgQQOnly dbSentRun oraclesOnePaper
      "2024-01-15").2.1 "2024-01-15" emailCh = false := by
  refine ⟨rfl, by decide, by decide, by decide⟩

theorem statusRank_le_one (s : String) (h : s ≠ "sent") : statusRank s ≤ 1 := by
  rw [statusRank, if_neg h]
  by_cases h2 : s = "rendered" ∨ s = "empty"
  · rw [if_pos h2]
  · rw [if_neg h2]; exact Nat.zero_le 1

/-- Claim C6 (amended: restricted to runs not already recorded as
`sent` — the only states in which the record is absent or has an empty
channel set as the controller itself leaves them): a `cmd_run`
invocation never lowers the status rank along
pending → empty/rendered → sent except to `failed`, and never removes
a (nonempty) channel from the recorded sent set.  Re-invoking an
already-`sent` run can regress both (see the counterexample). -/
theorem cmd_run_monotone_from_unsent (cfg : Config) (db : DB)
    (or : RunOracles) (today : String)
    (hinit : get_run db today = none ∨
      ∃ run, get_run db today = some run ∧ run.status ≠ "sent" ∧
        run.sent_channels = []) :
    ∃ run2, get_run (cmd_run cfg db or today).2.1 today = some run2 ∧
      (statusRank (match get_run db today with
          | none => "pending"
          | some r => r.status) ≤ statusRank run2.status ∨
        run2.status = "failed") ∧
      (∀ c : List Char, c ≠ [] → was_sent db today c = true →
        was_sent (cmd_run cfg db or today).2.1 today c = true) := by
  have hpres : ∀ c : List Char, c ≠ [] → was_sent db today c = true → False := by
    intro c hc hw
    rcases hinit with h | ⟨run, h, _, hsc⟩
    · rw [was_sent, h] at hw; simp at hw
    · simp only [was_sent, h] at hw
      rw [hsc] at hw
      have : c ∈ pySplitComma [] := by simpa using hw
      rw [show pySplitComma [] = [[]] from rfl, List.mem_singleton] at this
      exact hc this
  have hrank : statusRank (match get_run db today with
      | none => "pending"
      | some r => r.status) ≤ 1 := by
    rcases hinit with h | ⟨run, h, hst, _⟩
    · rw [h]; decide
    · rw [h]; exact statusRank_le_one run.status hst
  have hskip : entrySkip cfg db today = false := by
    rcases hinit with h | ⟨run, h, hst, _⟩
    · rw [entrySkip, h]
    · rw [entrySkip, h]
      show (if run.status = "sent" then
          !cfg.push_channels.isEmpty && cfg.push_channels.all (fun c => decide
            (c ∈ (if run.sent_channels.isEmpty = true then ([] : List (List Char))
                  else pySplitComma run.sent_channels)))
        else false) = false
      rw [if_neg hst]
  rcases cmd_run_cases cfg db or today with
    ⟨hs, _⟩ | ⟨e2, _, heq⟩ | ⟨papers2, _, _, heq⟩ |
    ⟨papers2, e2, _, _, _, heq⟩ | ⟨papers2, _, _, _, heq⟩
  · rw [hs] at hskip; exact absurd hskip (by simp)
  · refine ⟨⟨"failed", []⟩, ?_, Or.inr rfl, ?_⟩
    · rw [heq]
      exact assocLookup_set_self today (⟨"failed", []⟩ : RunRow) _
    · intro c hc hw; exact absurd (hpres c hc hw) not_false
  · refine ⟨⟨"empty", []⟩, ?_, Or.inl ?_, ?_⟩
    · rw [heq]
      exact assocLookup_set_self today (⟨"empty", []⟩ : RunRow) _
    · exact le_trans hrank (by decide)
    · intro c hc hw; exact absurd (hpres c hc hw) not_false
  · refine ⟨⟨"failed", []⟩, ?_, Or.inr rfl, ?_⟩
    · rw [heq]
      exact assocLookup_set_self today (⟨"failed", []⟩ : RunRow) _
    · intro c hc hw; exact absurd (hpres c hc hw) not_false
  · refine ⟨⟨if (sentOf cfg or.push).isEmpty then "rendered" else "sent",
      joinComma (sentOf cfg or.push)⟩, ?_, Or.inl ?_, ?_⟩
    · rw [heq]
      exact assocLookup_set_self today
        (⟨if (sentOf cfg or.push).isEmpty then "rendered" else "sent",
          joinComma (sentOf cfg or.push)⟩ : RunRow) _
    · refine le_trans hrank ?_
      by_cases hse : (sentOf cfg or.push).isEmpty
      · rw [if_pos hse]
        exact (by decide : (1 : ℕ) ≤ statusRank "rendered")
      · rw [if_neg hse]
        exact (by decide : (1 : ℕ) ≤ statusRank "sent")
    · intro c hc hw; exact absurd (hpres c hc hw) not_false

/-- Witness for the amended C6: a fresh (pending) run advancing to
`sent`. -/
theorem cmd_run_monotone_from_unsent_witness :
    ∃ run2, get_run (cmd_run cfgEmail emptyDB oraclesOnePaper
        "2024-01-15").2.1 "2024-01-15" = some run2 ∧
      (statusRank (match get_run emptyDB "2024-01-15" with
          | none => "pending"
          | some r => r.status) ≤ statusRank run2.status ∨
        run2.status = "failed") := by
  obtain ⟨run2, h1, h2, _⟩ := cmd_run_monotone_from_unsent cfgEmail emptyDB
    oraclesOnePaper "2024-01-15" (Or.inl rfl)
  exact ⟨run2, h1, h2⟩

/-- Witness for C8: a concrete run whose fetch stage raises. -/
theorem cmd_run_failure_records_failed_witness :
    (cmd_run cfgEmail emptyDB oraclesFetchFail "2024-01-15").1 =
      .error () ∧
    get_run (cmd_run cfgEmail emptyDB oraclesFetchFail
      "2024-01-15").2.1 "2024-01-15" = some ⟨"failed", []⟩ :=
  ⟨rfl, cmd_run_failure_records_failed cfgEmail emptyDB oraclesFetchFail
    "2024-01-15" () rfl⟩

/-! ### Claim C1: the summarization engine's persistence guarantee. -/

/-- Evidence against claim C1: for a paper with no cached summary whose
first LLM request raises a transport error, `summarize_one` propagates
the exception (its first `try` catches only `ValueError`), `_do_one`
catches it but builds the minimal fallback without saving it, and the
reassembly step re-reads the store — so `summarize_papers` returns the
paper paired with the absent-marker and persists nothing, leaving the
store unchanged. -/
theorem summarize_transport_error_not_persisted :
    (summarize_papers [samplePaper] emptyDB llmTransport).1 =
      [(samplePaper, none)] ∧
    get_summary (summarize_papers [samplePaper] emptyDB llmTransport).2
      samplePaper.arxiv_id = none ∧
    (summarize_papers [samplePaper] emptyDB llmTransport).2 = emptyDB :=
  ⟨rfl, rfl, rfl⟩

/-! ### Claim C5: the sliding-window rate limiter. -/

theorem getD_drop_q (l : List ℚ) :
    ∀ (i j : Nat), (l.drop i).getD j 0 = l.getD (i + j) 0 := by
  induction l with
  | nil => intro i j; simp
  | cons x xs ih =>
    intro i j
    cases i with
    | zero => simp
    | succ i2 =>
      rw [List.drop_succ_cons, ih i2 j]
      have : i2 + 1 + j = (i2 + j) + 1 := by omega
      rw [this]
      rfl

theorem getD_mem_q (l : List ℚ) (i : Nat) (hi : i < l.length) :
    l.getD i 0 ∈ l := by
  rw [List.getD_eq_get _ _ hi]
  exact List.get_mem l i hi

theorem pairwise_getD_le (l : List ℚ) (hp : l.Pairwise (· ≤ ·))
    (i j : Nat) (hij : i ≤ j) (hj : j < l.length) :
    l.getD i 0 ≤ l.getD j 0 := by
  rcases lt_or_eq_of_le hij with hlt | heq
  · have hi : i < l.length := lt_trans hlt hj
    rw [List.getD_eq_get _ _ hi, List.getD_eq_get _ _ hj]
    exact List.pairwise_iff_get.mp hp ⟨i, hi⟩ ⟨j, hj⟩ hlt
  · subst heq; rfl

theorem sorted_drop_le (l : List ℚ) (hp : l.Pairwise (· ≤ ·))
    (i : Nat) : ∀ x ∈ l.drop i, l.getD i 0 ≤ x := by
  intro x hx
  obtain ⟨n, hn⟩ := List.mem_iff_get.mp hx
  have hlen : i + n.val < l.length := by
    have h3 : (List.drop i l).length = l.length - i := by simp
    have h4 := n.isLt
    omega
  have hx2 : l.getD (i + n.val) 0 = x := by
    rw [← getD_drop_q l i n.val, List.getD_eq_get _ _ n.isLt]
    exact hn
  rw [← hx2]
  exact pairwise_getD_le l hp i (i + n.val) (Nat.le_add_right i n.val) hlen

theorem filter_suffix_length (l : List ℚ) (hp : l.Pairwise (· ≤ ·))
    (cut : ℚ) (i rpm : Nat) (hlen : i + rpm = l.length) (hi : i < l.length)
    (hgt : cut < l.getD i 0) :
    rpm ≤ (l.filter (fun t => cut < t)).length := by
  have hdrop : (l.drop i).filter (fun t => cut < t) = l.drop i := by
    rw [List.filter_eq_self]
    intro x hx
    have := sorted_drop_le l hp i x hx
    simp only [decide_eq_true_eq]
    linarith
  have h1 : rpm = ((l.drop i).filter (fun t => cut < t)).length := by
    rw [hdrop, List.length_drop]; omega
  have h2 : ((l.drop i).filter (fun t => cut < t)).length ≤
      (l.filter (fun t => cut < t)).length := by
    conv_rhs => rw [← List.take_append_drop i l]
    rw [List.filter_append, List.length_append]
    omega
  omega

/-- Invariant induction for the rate limiter: given a sorted history
`h` of completions bounded by `last`, whose live window is
`h.filter (cut < ·)` for some cutoff at least 60 below `last`, and
which already satisfies the rpm-spacing property, every extension of
the history by further serialized acquisitions satisfies it too. -/
theorem limiterGo_window_aux (rpm : Nat) (hrpm : 1 ≤ rpm) :
    ∀ (rs h : List ℚ) (last cut : ℚ),
      h.Pairwise (· ≤ ·) →
      (∀ t ∈ h, t ≤ last) →
      cut ≤ last - 60 →
      (∀ i j : Nat, i + rpm = j → j < h.length →
        h.getD i 0 + 60 ≤ h.getD j 0) →
      ∀ i j : Nat, i + rpm = j →
        j < (h ++ limiterGo rpm (h.filter (fun t => cut < t)) last rs).length →
        (h ++ limiterGo rpm (h.filter (fun t => cut < t)) last rs).getD i 0 + 60 ≤
          (h ++ limiterGo rpm (h.filter (fun t => cut < t)) last rs).getD j 0 := by
  intro rs
  induction rs with
  | nil =>
    intro h last cut hpair hbound hcut hwin i j hij hj
    rw [limiterGo, List.append_nil] at hj ⊢
    exact hwin i j hij hj
  | cons r rs ih =>
    intro h last cut hpair hbound hcut hwin i j hij hj
    have ha : last ≤ max r last := le_max_right r last
    set a := max r last with ha_def
    have hcut_a : cut ≤ a - 60 := by linarith
    have hfilter : pruneTs a (h.filter (fun t => cut < t)) =
        h.filter (fun t => a - 60 < t) := by
      rw [pruneTs, List.filter_filter]
      apply List.filter_congr
      intro t ht
      by_cases h1 : a - 60 < t
      · have h2 : cut < t := lt_of_le_of_lt hcut_a h1
        simp [h1, h2]
      · simp [h1]
    have hgo : limiterGo rpm (h.filter (fun t => cut < t)) last (r :: rs) =
        (acquireStep rpm (h.filter (fun t => cut < t)) a).2 ::
          limiterGo rpm (acquireStep rpm (h.filter (fun t => cut < t)) a).1
            (acquireStep rpm (h.filter (fun t => cut < t)) a).2 rs := rfl
    by_cases hfull : rpm ≤ (h.filter (fun t => a - 60 < t)).length
    · -- window full: the acquisition waits for the oldest live
      -- timestamp to leave the window
      obtain ⟨t0, rest, hFcons⟩ : ∃ t0 rest,
          h.filter (fun t => a - 60 < t) = t0 :: rest := by
        cases hF2 : h.filter (fun t => a - 60 < t) with
        | nil => rw [hF2] at hfull; simp at hfull; omega
        | cons x xs => exact ⟨x, xs, rfl⟩
      have ht0F : t0 ∈ h.filter (fun t => a - 60 < t) := by
        rw [hFcons]; exact List.mem_cons_self t0 rest
      have ht0h : t0 ∈ h := (List.mem_filter.mp ht0F).1
      have ht0gt : a - 60 < t0 := by
        have := (List.mem_filter.mp ht0F).2
        simpa using this
      have hstep : acquireStep rpm (h.filter (fun t => cut < t)) a =
          (h.filter (fun t => a - 60 < t) ++ [max a (t0 + 60)],
           max a (t0 + 60)) := by
        unfold acquireStep
        rw [hfilter, if_pos hfull, hFcons]
        rfl
      have hac : a ≤ max a (t0 + 60) := le_max_left _ _
      have ht0c : t0 + 60 ≤ max a (t0 + 60) := le_max_right _ _
      have hfilter2 : (h ++ [max a (t0 + 60)]).filter (fun t => a - 60 < t) =
          h.filter (fun t => a - 60 < t) ++ [max a (t0 + 60)] := by
        rw [List.filter_append]
        congr 1
        have : a - 60 < max a (t0 + 60) := by
          have h60 : a - 60 < a := by linarith
          linarith
        simp [this]
      have hout : h ++ limiterGo rpm (h.filter (fun t => cut < t)) last (r :: rs) =
          (h ++ [max a (t0 + 60)]) ++
            limiterGo rpm ((h ++ [max a (t0 + 60)]).filter (fun t => a - 60 < t))
              (max a (t0 + 60)) rs := by
        rw [hgo, hstep, hfilter2]
        simp
      rw [hout] at hj ⊢
      have hpair2 : (h ++ [max a (t0 + 60)]).Pairwise (· ≤ ·) := by
        rw [List.pairwise_append]
        refine ⟨hpair, List.pairwise_singleton _ _, ?_⟩
        intro x hx y hy
        rw [List.mem_singleton] at hy
        subst hy
        exact le_trans (hbound x hx) (le_trans ha hac)
      have hbound2 : ∀ t ∈ h ++ [max a (t0 + 60)], t ≤ max a (t0 + 60) := by
        intro t ht
        rcases List.mem_append.mp ht with h1 | h1
        · exact le_trans (hbound t h1) (le_trans ha hac)
        · rw [List.mem_singleton] at h1; subst h1; exact le_refl _
      have hwin2 : ∀ i2 j2 : Nat, i2 + rpm = j2 →
          j2 < (h ++ [max a (t0 + 60)]).length →
          (h ++ [max a (t0 + 60)]).getD i2 0 + 60 ≤
            (h ++ [max a (t0 + 60)]).getD j2 0 := by
        intro i2 j2 hij2 hj2
        rw [List.length_append, List.length_singleton] at hj2
        by_cases hb : j2 < h.length
        · have hi2 : i2 < h.length := by omega
          rw [List.getD_append _ _ _ _ hi2, List.getD_append _ _ _ _ hb]
          exact hwin i2 j2 hij2 hb
        · have hj2e : j2 = h.length := by omega
          have hi2lt : i2 < h.length := by omega
          have hgj : (h ++ [max a (t0 + 60)]).getD j2 0 = max a (t0 + 60) := by
            rw [hj2e, List.getD_append_right _ _ _ _ (le_refl _)]
            simp
          rw [hgj, List.getD_append _ _ _ _ hi2lt]
          by_cases hle : h.getD i2 0 ≤ t0
          · linarith
          · exfalso
            push_neg at hle
            obtain ⟨n, hn⟩ := List.mem_iff_get.mp ht0h
            have hnlt : n.val < i2 := by
              by_contra hge
              push_neg at hge
              have hgd := pairwise_getD_le h hpair i2 n.val hge n.isLt
              rw [List.getD_eq_get _ _ n.isLt, hn] at hgd
              linarith
            have hjn : n.val + rpm < h.length := by omega
            have hw := hwin n.val (n.val + rpm) rfl hjn
            have hgn : h.getD n.val 0 = t0 := by
              rw [List.getD_eq_get _ _ n.isLt]; exact hn
            have hmem : h.getD (n.val + rpm) 0 ∈ h := getD_mem_q h _ hjn
            have hle2 : h.getD (n.val + rpm) 0 ≤ last := hbound _ hmem
            rw [hgn] at hw
            linarith
      exact ih (h ++ [max a (t0 + 60)]) (max a (t0 + 60)) (a - 60)
        hpair2 hbound2 (by linarith) hwin2 i j hij hj
    · -- window not full: the acquisition completes at its entry time
      have hstep : acquireStep rpm (h.filter (fun t => cut < t)) a =
          (h.filter (fun t => a - 60 < t) ++ [a], a) := by
        unfold acquireStep
        rw [hfilter, if_neg hfull]
      have hfilter2 : (h ++ [a]).filter (fun t => a - 60 < t) =
          h.filter (fun t => a - 60 < t) ++ [a] := by
        rw [List.filter_append]
        congr 1
        have : a - 60 < a := by linarith
        simp [this]
      have hout : h ++ limiterGo rpm (h.filter (fun t => cut < t)) last (r :: rs) =
          (h ++ [a]) ++
            limiterGo rpm ((h ++ [a]).filter (fun t => a - 60 < t)) a rs := by
        rw [hgo, hstep, hfilter2]
        simp
      rw [hout] at hj ⊢
      have hpair2 : (h ++ [a]).Pairwise (· ≤ ·) := by
        rw [List.pairwise_append]
        refine ⟨hpair, List.pairwise_singleton _ _, ?_⟩
        intro x hx y hy
        rw [List.mem_singleton] at hy
        subst hy
        exact le_trans (hbound x hx) ha
      have hbound2 : ∀ t ∈ h ++ [a], t ≤ a := by
        intro t ht
        rcases List.mem_append.mp ht with h1 | h1
        · exact le_trans (hbound t h1) ha
        · rw [List.mem_singleton] at h1; subst h1; exact le_refl _
      have hwin2 : ∀ i2 j2 : Nat, i2 + rpm = j2 →
          j2 < (h ++ [a]).length →
          (h ++ [a]).getD i2 0 + 60 ≤ (h ++ [a]).getD j2 0 := by
        intro i2 j2 hij2 hj2
        rw [List.length_append, List.length_singleton] at hj2
        by_cases hb : j2 < h.length
        · have hi2 : i2 < h.length := by omega
          rw [List.getD_append _ _ _ _ hi2, List.getD_append _ _ _ _ hb]
          exact hwin i2 j2 hij2 hb
        · have hj2e : j2 = h.length := by omega
          have hi2lt : i2 < h.length := by omega
          have hgj : (h ++ [a]).getD j2 0 = a := by
            rw [hj2e, List.getD_append_right _ _ _ _ (le_refl _)]
            simp
          rw [hgj, List.getD_append _ _ _ _ hi2lt]
          by_contra hcon
          push_neg at hcon
          have hgt : a - 60 < h.getD i2 0 := by linarith
          exact hfull (filter_suffix_length h hpair (a - 60) i2 rpm
            (by omega) hi2lt hgt)
      exact ih (h ++ [a]) a (a - 60) hpair2 hbound2 (by linarith) hwin2
        i j hij hj

/-- Back-to-back acquisitions against a window already holding `k`
timestamps at time `t`: the next `m` complete immediately at `t`, and
the one that fills the window to `rpm` suspends until `t + 60`. -/
theorem limiterGo_replicate (rpm : Nat) (hrpm : 1 ≤ rpm) (t : ℚ) :
    ∀ (m k : Nat), k + m = rpm →
      limiterGo rpm (List.replicate k t) t (List.replicate (m + 1) t) =
        List.replicate m t ++ [t + 60] := by
  have hprune : ∀ k : Nat, pruneTs t (List.replicate k t) = List.replicate k t := by
    intro k
    rw [pruneTs, List.filter_eq_self]
    intro x hx
    have hxe := List.eq_of_mem_replicate hx
    subst hxe
    simp only [decide_eq_true_eq]
    linarith
  intro m
  induction m with
  | zero =>
    intro k hk
    have hk2 : k = rpm := by omega
    subst hk2
    obtain ⟨n, hn⟩ : ∃ n, k = n + 1 := ⟨k - 1, by omega⟩
    have hhead : (List.replicate k t).headD t = t := by
      rw [hn, List.replicate_succ]; rfl
    have hstep : acquireStep k (List.replicate k t) (max t t) =
        (List.replicate k t ++ [t + 60], t + 60) := by
      rw [max_self]
      unfold acquireStep
      rw [hprune k, List.length_replicate, if_pos (le_refl k), hhead,
        max_eq_right (by linarith : t ≤ t + 60)]
    show limiterGo k (List.replicate k t) t (List.replicate 1 t) =
      List.replicate 0 t ++ [t + 60]
    rw [List.replicate_one]
    simp only [limiterGo]
    rw [hstep]
    rfl
  | succ m ihm =>
    intro k hk
    have hstep : acquireStep rpm (List.replicate k t) (max t t) =
        (List.replicate k t ++ [t], t) := by
      rw [max_self]
      unfold acquireStep
      rw [hprune k, List.length_replicate, if_neg (by omega)]
    have hgo : ∀ (ts : List ℚ) (last r : ℚ) (rs : List ℚ),
        limiterGo rpm ts last (r :: rs) =
          (acquireStep rpm ts (max r last)).2 ::
            limiterGo rpm (acquireStep rpm ts (max r last)).1
              (acquireStep rpm ts (max r last)).2 rs :=
      fun _ _ _ _ => rfl
    show limiterGo rpm (List.replicate k t) t (List.replicate (m + 1 + 1) t) =
      List.replicate (m + 1) t ++ [t + 60]
    rw [List.replicate_succ, hgo, hstep]
    have hrep : List.replicate k t ++ [t] = List.replicate (k + 1) t :=
      (List.replicate_succ' k t).symm
    show t :: limiterGo rpm (List.replicate k t ++ [t]) t
        (List.replicate (m + 1) t) = _
    rw [hrep, ihm (k + 1) (by omega), List.replicate_succ]
    rfl

/-- N+1 back-to-back acquisitions on a fresh limiter: the first N
complete immediately, the (N+1)th at exactly `t + 60`, when the oldest
timestamp leaves the 60-second window. -/
theorem limiterRun_back_to_back (rpm : Nat) (hrpm : 1 ≤ rpm) (t : ℚ)
    (ht : 0 ≤ t) :
    limiterRun rpm (List.replicate (rpm + 1) t) =
      List.replicate rpm t ++ [t + 60] := by
  rw [limiterRun, List.replicate_succ]
  simp only [limiterGo]
  have hstep : acquireStep rpm [] (max t 0) = ([t], t) := by
    rw [max_eq_left ht]
    unfold acquireStep
    rw [if_neg (by simp [pruneTs]; omega)]
    rfl
  rw [hstep]
  obtain ⟨n, hn⟩ : ∃ n, rpm = n + 1 := ⟨rpm - 1, by omega⟩
  have h1 : ([t] : List ℚ) = List.replicate 1 t := rfl
  rw [h1, hn, limiterGo_replicate (n + 1) (by omega) t n 1 (by omega),
    List.replicate_succ]
  rfl

/-- Claim C5: the rate limiter (i) records exactly one timestamp per
acquisition (appended to the pruned window), (ii) on N+1 back-to-back
acquisitions suspends the (N+1)th until the oldest timestamp exits the
60-second window (completing exactly 60 seconds after it), and (iii)
never lets more than N acquisitions complete within any rolling
60-second interval: the (i+N)th completion is at least 60 seconds
after the ith. -/
theorem rate_limiter_spec (rpm : Nat) (hrpm : 1 ≤ rpm) :
    (∀ (ts : List ℚ) (now : ℚ),
      ((acquireStep rpm ts now).1).length = (pruneTs now ts).length + 1) ∧
    (∀ t : ℚ, 0 ≤ t →
      limiterRun rpm (List.replicate (rpm + 1) t) =
        List.replicate rpm t ++ [t + 60]) ∧
    (∀ (rs : List ℚ) (i j : Nat), i + rpm = j →
      j < (limiterRun rpm rs).length →
      (limiterRun rpm rs).getD i 0 + 60 ≤ (limiterRun rpm rs).getD j 0) := by
  refine ⟨?_, fun t ht => limiterRun_back_to_back rpm hrpm t ht, ?_⟩
  · intro ts now
    unfold acquireStep
    by_cases hfull : rpm ≤ (pruneTs now ts).length
    · rw [if_pos hfull, List.length_append, List.length_singleton]
    · rw [if_neg hfull, List.length_append, List.length_singleton]
  · intro rs i j hij hj
    have haux := limiterGo_window_aux rpm hrpm rs [] 0 (-60)
      List.Pairwise.nil (by simp) (by norm_num)
      (by intro i2 j2 _ hj2; simp at hj2)
      i j hij (by simpa [limiterRun] using hj)
    simpa [limiterRun] using haux

/-- Witness for C5 at `rpm = 1`: two immediate acquisitions complete
at times 0 and 60, and an `acquire` appends exactly one timestamp. -/
theorem rate_limiter_spec_witness :
    limiterRun 1 (List.replicate 2 (0 : ℚ)) = [0, 60] ∧
    ((acquireStep 1 [] (5 : ℚ)).1).length =
      (pruneTs 5 ([] : List ℚ)).length + 1 := by
  have h := rate_limiter_spec 1 (by decide)
  constructor
  · rw [h.2.1 0 le_rfl]
    norm_num
  · exact h.1 [] 5

end ArxivRecent
